import Mathlib

/- Verification of the CSSFinder Gilbert-algorithm solver.

The numerical kernels of the repository (src/cssfinder/algorithm/backend/numpy)
operate on dense complex matrices.  We embed them shallowly over the exact
field ℚ(i) of complex rationals, written `CC` below: every kernel expression
(trace of a matrix product, rotation U ρ U†, convex combination, the Gilbert
coefficient) is rational in the matrix entries, so the embedding evaluates the
same arithmetic as the numpy code, with floating error removed ("exact
arithmetic" in the claims).  Random draws (Haar vectors, random unitaries) are
modelled as explicit input streams. -/

/-- Complex numbers with rational coordinates: the exact-arithmetic stand-in
for the numpy complex128 scalars used by the backend. -/
structure CC where
  re : ℚ
  im : ℚ
  deriving DecidableEq

namespace CC

theorem ext_re_im {x y : CC} (h1 : x.re = y.re) (h2 : x.im = y.im) : x = y := by
  cases x
  cases y
  simp_all

instance : Zero CC := ⟨⟨0, 0⟩⟩

instance : One CC := ⟨⟨1, 0⟩⟩

instance : Add CC := ⟨fun x y => ⟨x.re + y.re, x.im + y.im⟩⟩

instance : Neg CC := ⟨fun x => ⟨-x.re, -x.im⟩⟩

instance : Sub CC := ⟨fun x y => ⟨x.re - y.re, x.im - y.im⟩⟩

instance : Mul CC := ⟨fun x y => ⟨x.re * y.re - x.im * y.im, x.re * y.im + x.im * y.re⟩⟩

@[simp] theorem zero_re : (0 : CC).re = 0 := rfl

@[simp] theorem zero_im : (0 : CC).im = 0 := rfl

@[simp] theorem one_re : (1 : CC).re = 1 := rfl

@[simp] theorem one_im : (1 : CC).im = 0 := rfl

@[simp] theorem add_re (x y : CC) : (x + y).re = x.re + y.re := rfl

@[simp] theorem add_im (x y : CC) : (x + y).im = x.im + y.im := rfl

@[simp] theorem neg_re (x : CC) : (-x).re = -x.re := rfl

@[simp] theorem neg_im (x : CC) : (-x).im = -x.im := rfl

@[simp] theorem sub_re (x y : CC) : (x - y).re = x.re - y.re := rfl

@[simp] theorem sub_im (x y : CC) : (x - y).im = x.im - y.im := rfl

@[simp] theorem mul_re (x y : CC) : (x * y).re = x.re * y.re - x.im * y.im := rfl

@[simp] theorem mul_im (x y : CC) : (x * y).im = x.re * y.im + x.im * y.re := rfl

instance : CommRing CC where
  add := (· + ·)
  add_assoc a b c := by apply ext_re_im <;> simp <;> ring
  zero := 0
  zero_add a := by apply ext_re_im <;> simp
  add_zero a := by apply ext_re_im <;> simp
  add_comm a b := by apply ext_re_im <;> simp <;> ring
  mul := (· * ·)
  left_distrib a b c := by apply ext_re_im <;> simp <;> ring
  right_distrib a b c := by apply ext_re_im <;> simp <;> ring
  zero_mul a := by apply ext_re_im <;> simp
  mul_zero a := by apply ext_re_im <;> simp
  mul_assoc a b c := by apply ext_re_im <;> simp <;> ring
  one := 1
  one_mul a := by apply ext_re_im <;> simp
  mul_one a := by apply ext_re_im <;> simp
  mul_comm a b := by apply ext_re_im <;> simp <;> ring
  neg := Neg.neg
  sub := Sub.sub
  sub_eq_add_neg a b := by apply ext_re_im <;> simp <;> ring
  neg_add_cancel a := by apply ext_re_im <;> simp
  nsmul := nsmulRec
  zsmul := zsmulRec

instance : Star CC := ⟨fun z => ⟨z.re, -z.im⟩⟩

@[simp] theorem star_re (z : CC) : (star z).re = z.re := rfl

@[simp] theorem star_im (z : CC) : (star z).im = -z.im := rfl

instance : StarRing CC where
  star_involutive z := by apply ext_re_im <;> simp
  star_mul x y := by apply ext_re_im <;> simp <;> ring
  star_add x y := by apply ext_re_im <;> simp <;> ring

/-- Embedding of a rational scalar (the backend's real `float64` values, e.g.
the Gilbert coefficient `cc1`) into the complex scalar type. -/
def ofQ (q : ℚ) : CC := ⟨q, 0⟩

@[simp] theorem ofQ_re (q : ℚ) : (ofQ q).re = q := rfl

@[simp] theorem ofQ_im (q : ℚ) : (ofQ q).im = 0 := rfl

/-- Squared modulus of a complex scalar. -/
def normSq (z : CC) : ℚ := z.re * z.re + z.im * z.im

theorem normSq_nonneg (z : CC) : 0 ≤ normSq z := by
  have h1 : 0 ≤ z.re * z.re := mul_self_nonneg _
  have h2 : 0 ≤ z.im * z.im := mul_self_nonneg _
  simpa [normSq] using add_nonneg h1 h2

theorem normSq_eq_zero_iff {z : CC} : normSq z = 0 ↔ z = 0 := by
  constructor
  · intro h
    have hdef : z.re * z.re + z.im * z.im = 0 := h
    have h1 : 0 ≤ z.re * z.re := mul_self_nonneg _
    have h2 : 0 ≤ z.im * z.im := mul_self_nonneg _
    have hre : z.re * z.re = 0 := by linarith
    have him : z.im * z.im = 0 := by linarith
    apply ext_re_im
    · simp [mul_self_eq_zero.mp hre]
    · simp [mul_self_eq_zero.mp him]
  · intro h
    subst h
    simp [normSq]

@[simp] theorem mul_star_re (z : CC) : (z * star z).re = normSq z := by
  simp [normSq]

end CC

/-- The real part, as an additive monoid morphism (so it distributes over
finite sums of complex scalars). -/
def reHom : CC →+ ℚ where
  toFun := CC.re
  map_zero' := rfl
  map_add' _ _ := rfl

theorem re_sum {α : Type} (s : Finset α) (f : α → CC) :
    (∑ x ∈ s, f x).re = ∑ x ∈ s, (f x).re :=
  map_sum reHom f s

theorem ofQ_mul_re (q : ℚ) (z : CC) : (CC.ofQ q * z).re = q * z.re := by
  simp [CC.ofQ]

/-- Square complex matrices indexed by `n`: the embedding of the backend's
dense `NDArray` state matrices. -/
abbrev Mat (n : Type) [Fintype n] [DecidableEq n] := Matrix n n CC

section Kernels

variable {n : Type} [Fintype n] [DecidableEq n]

/-- Embeds `product` from
src/cssfinder/algorithm/backend/numpy/_impl/_complex128.py:
the real part of the trace of the matrix product. -/
def product (matrix1 matrix2 : Mat n) : ℚ :=
  (Matrix.trace (matrix1 * matrix2)).re

/-- Embeds `rotate` from _complex128.py: `np.dot(unitary, np.dot(rho2,
np.conj(unitary).T))`, i.e. U ρ U†. -/
def rotate (rho2 unitary : Mat n) : Mat n :=
  unitary * (rho2 * unitary.conjTranspose)

theorem product_comm (a b : Mat n) : product a b = product b a := by
  unfold product
  rw [Matrix.trace_mul_comm]

theorem product_add_left (a b c : Mat n) :
    product (a + b) c = product a c + product b c := by
  unfold product
  rw [Matrix.add_mul, Matrix.trace_add]
  rfl

theorem product_add_right (a b c : Mat n) :
    product a (b + c) = product a b + product a c := by
  unfold product
  rw [Matrix.mul_add, Matrix.trace_add]
  rfl

theorem product_sub_left (a b c : Mat n) :
    product (a - b) c = product a c - product b c := by
  unfold product
  rw [Matrix.sub_mul, Matrix.trace_sub]
  rfl

theorem product_sub_right (a b c : Mat n) :
    product a (b - c) = product a b - product a c := by
  unfold product
  rw [Matrix.mul_sub, Matrix.trace_sub]
  rfl

theorem product_smul_left (q : ℚ) (a b : Mat n) :
    product (CC.ofQ q • a) b = q * product a b := by
  unfold product
  rw [Matrix.smul_mul, Matrix.trace_smul, smul_eq_mul, ofQ_mul_re]

theorem product_smul_right (q : ℚ) (a b : Mat n) :
    product a (CC.ofQ q • b) = q * product a b := by
  unfold product
  rw [Matrix.mul_smul, Matrix.trace_smul, smul_eq_mul, ofQ_mul_re]

theorem product_self_eq_sum_normSq {m : Mat n} (hm : m.IsHermitian) :
    product m m = ∑ i, ∑ j, CC.normSq (m i j) := by
  unfold product
  rw [Matrix.trace, re_sum]
  apply Finset.sum_congr rfl
  intro i _
  rw [Matrix.diag_apply, Matrix.mul_apply, re_sum]
  apply Finset.sum_congr rfl
  intro j _
  have hji : m j i = star (m i j) := by
    have := congrArg (fun M => M j i) hm
    simpa [Matrix.conjTranspose_apply] using this.symm
  show (m i j * m j i).re = CC.normSq (m i j)
  rw [hji]
  exact CC.mul_star_re (m i j)

theorem product_self_nonneg {m : Mat n} (hm : m.IsHermitian) :
    0 ≤ product m m := by
  rw [product_self_eq_sum_normSq hm]
  refine Finset.sum_nonneg fun i _ => Finset.sum_nonneg fun j _ => CC.normSq_nonneg _

theorem product_self_pos {m : Mat n} (hm : m.IsHermitian) (hne : m ≠ 0) :
    0 < product m m := by
  rcases lt_or_eq_of_le (product_self_nonneg hm) with h | h
  · exact h
  · exfalso
    apply hne
    rw [product_self_eq_sum_normSq hm] at h
    have hz : ∀ i ∈ (Finset.univ : Finset n), ∑ j, CC.normSq (m i j) = 0 := by
      intro i _
      have hnn : ∀ i ∈ (Finset.univ : Finset n), 0 ≤ ∑ j, CC.normSq (m i j) :=
        fun i _ => Finset.sum_nonneg fun j _ => CC.normSq_nonneg _
      exact (Finset.sum_eq_zero_iff_of_nonneg hnn).mp h.symm i (Finset.mem_univ i)
    ext i j
    have hzj := (Finset.sum_eq_zero_iff_of_nonneg
      (fun j _ => CC.normSq_nonneg (m i j))).mp (hz i (Finset.mem_univ i)) j
      (Finset.mem_univ j)
    have := CC.normSq_eq_zero_iff.mp hzj
    simp [this]

theorem rotate_isHermitian {ρ u : Mat n} (h : ρ.IsHermitian) :
    (rotate ρ u).IsHermitian := by
  unfold rotate
  unfold Matrix.IsHermitian
  rw [Matrix.conjTranspose_mul, Matrix.conjTranspose_mul,
    Matrix.conjTranspose_conjTranspose, h.eq, Matrix.mul_assoc]

end Kernels

section GilbertCoefficient

variable {n : Type} [Fintype n] [DecidableEq n]

/-- Embeds the Gilbert-coefficient computation of `NumPyBase._update_state`
(src/cssfinder/algorithm/backend/numpy/base.py, lines 244-250) with the
cached values `aa4 = 2*product(visibility, intermediate)` and
`aa6 = product(intermediate, intermediate)` spelled out (these are exactly the
values the engine maintains for the current intermediate state). -/
def gilbertCoefficient (rhoV rho1 rho2 : Mat n) : ℚ :=
  let aa3 := product rho2 rho2
  let aa2 := 2 * product rhoV rho2
  let aa5 := 2 * product rho1 rho2
  let aa4 := 2 * product rhoV rho1
  let aa6 := product rho1 rho1
  let bb2 := -aa4 + aa2 + aa5 - 2 * aa3
  let bb3 := aa6 - aa5 + aa3
  let cc1 := -bb2 / (2 * bb3)
  cc1

/-- The residual left after moving to the convex combination
`c*rho1 + (1-c)*rho2` of the intermediate state and the candidate. -/
def residualAt (rhoV rho1 rho2 : Mat n) (c : ℚ) : Mat n :=
  rhoV - (CC.ofQ c • rho1 + CC.ofQ (1 - c) • rho2)

/-- Squared Hilbert-Schmidt norm as computed by the backend: `product(m, m)`.
For Hermitian `m` this equals the sum of the squared moduli of the entries. -/
def sqNorm (m : Mat n) : ℚ := product m m

theorem residualAt_eq (rhoV rho1 rho2 : Mat n) (c : ℚ) :
    residualAt rhoV rho1 rho2 c = (rhoV - rho2) - CC.ofQ c • (rho1 - rho2) := by
  unfold residualAt
  ext i j
  simp only [Matrix.sub_apply, Matrix.add_apply, Matrix.smul_apply, smul_eq_mul]
  apply CC.ext_re_im <;> simp [CC.ofQ] <;> ring

theorem sqNorm_sub_smul (P Q : Mat n) (c : ℚ) :
    sqNorm (P - CC.ofQ c • Q)
      = sqNorm P - 2 * c * product P Q + c ^ 2 * sqNorm Q := by
  unfold sqNorm
  rw [product_sub_left, product_sub_right, product_sub_right, product_smul_left,
    product_smul_left, product_smul_right, product_smul_right, product_comm Q P]
  ring

theorem gilbertCoefficient_eq_div (rhoV rho1 rho2 : Mat n) :
    gilbertCoefficient rhoV rho1 rho2
      = product (rhoV - rho2) (rho1 - rho2)
          / product (rho1 - rho2) (rho1 - rho2) := by
  have hX : product (rhoV - rho2) (rho1 - rho2)
      = product rhoV rho1 - product rhoV rho2 - product rho1 rho2
        + product rho2 rho2 := by
    rw [product_sub_left, product_sub_right, product_sub_right,
      product_comm rho2 rho1]
    ring
  have hY : product (rho1 - rho2) (rho1 - rho2)
      = product rho1 rho1 - 2 * product rho1 rho2 + product rho2 rho2 := by
    rw [product_sub_left, product_sub_right, product_sub_right,
      product_comm rho2 rho1]
    ring
  rw [hX, hY]
  simp only [gilbertCoefficient]
  rw [show -(-(2 * product rhoV rho1) + 2 * product rhoV rho2
        + 2 * product rho1 rho2 - 2 * product rho2 rho2)
      = 2 * (product rhoV rho1 - product rhoV rho2 - product rho1 rho2
        + product rho2 rho2) from by ring]
  exact mul_div_mul_left _ _ two_ne_zero

theorem sqNorm_residualAt (rhoV rho1 rho2 : Mat n) (c : ℚ) :
    sqNorm (residualAt rhoV rho1 rho2 c)
      = sqNorm (rhoV - rho2)
        - 2 * c * product (rhoV - rho2) (rho1 - rho2)
        + c ^ 2 * product (rho1 - rho2) (rho1 - rho2) := by
  rw [residualAt_eq, sqNorm_sub_smul]
  rfl

theorem gilbertCoefficient_min (rhoV rho1 rho2 : Mat n)
    (h1 : rho1.IsHermitian) (h2 : rho2.IsHermitian) (hne : rho1 ≠ rho2)
    (c : ℚ) :
    sqNorm (residualAt rhoV rho1 rho2 (gilbertCoefficient rhoV rho1 rho2))
      ≤ sqNorm (residualAt rhoV rho1 rho2 c) := by
  have hY : 0 < product (rho1 - rho2) (rho1 - rho2) :=
    product_self_pos (h1.sub h2) (sub_ne_zero.mpr hne)
  rw [gilbertCoefficient_eq_div, sqNorm_residualAt, sqNorm_residualAt]
  generalize hXg : product (rhoV - rho2) (rho1 - rho2) = X at *
  generalize hYg : product (rho1 - rho2) (rho1 - rho2) = Y at *
  have hXY : X / Y * Y = X := div_mul_cancel₀ X (ne_of_gt hY)
  generalize htg : X / Y = t at *
  rw [← hXY]
  nlinarith [mul_nonneg (le_of_lt hY) (sq_nonneg (c - t))]

end GilbertCoefficient

/-- Concrete diagonal 2x2 test matrix with rational diagonal entries (used by
witnesses and counterexamples; diagonal real matrices are Hermitian). -/
def diagM (a b : ℚ) : Mat (Fin 2) := !![CC.ofQ a, 0; 0, CC.ofQ b]

/-- C1: for Hermitian matrices rho_v, rho_1, rho_2 with rho_1 different from
rho_2, the Gilbert coefficient c = -bb2/(2*bb3) computed by `_update_state`
equals `product(rho_v - rho_2, rho_1 - rho_2) / product(rho_1 - rho_2,
rho_1 - rho_2)` and is the analytic minimizer over c of the squared
Hilbert-Schmidt norm of `rho_v - (c*rho_1 + (1-c)*rho_2)` (exact
arithmetic). -/
theorem claim_C1 {n : Type} [Fintype n] [DecidableEq n] (rhoV rho1 rho2 : Mat n)
    (hv : rhoV.IsHermitian) (h1 : rho1.IsHermitian) (h2 : rho2.IsHermitian)
    (hne : rho1 ≠ rho2) :
    gilbertCoefficient rhoV rho1 rho2
        = product (rhoV - rho2) (rho1 - rho2)
          / product (rho1 - rho2) (rho1 - rho2)
      ∧ ∀ c : ℚ,
        sqNorm (residualAt rhoV rho1 rho2 (gilbertCoefficient rhoV rho1 rho2))
          ≤ sqNorm (residualAt rhoV rho1 rho2 c) :=
  ⟨gilbertCoefficient_eq_div rhoV rho1 rho2,
    fun c => gilbertCoefficient_min rhoV rho1 rho2 h1 h2 hne c⟩

/-- Witness for C1 at the concrete Hermitian triple rho_v = diag(1,0),
rho_1 = diag(3/4,1/4), rho_2 = diag(0,1), evaluating the minimizer property
at c = 0. -/
theorem claim_C1_witness :
    gilbertCoefficient (diagM 1 0) (diagM (3/4) (1/4)) (diagM 0 1)
        = product (diagM 1 0 - diagM 0 1) (diagM (3/4) (1/4) - diagM 0 1)
          / product (diagM (3/4) (1/4) - diagM 0 1)
            (diagM (3/4) (1/4) - diagM 0 1)
      ∧ sqNorm (residualAt (diagM 1 0) (diagM (3/4) (1/4)) (diagM 0 1)
          (gilbertCoefficient (diagM 1 0) (diagM (3/4) (1/4)) (diagM 0 1)))
        ≤ sqNorm (residualAt (diagM 1 0) (diagM (3/4) (1/4)) (diagM 0 1) 0) :=
  ⟨(claim_C1 (diagM 1 0) (diagM (3/4) (1/4)) (diagM 0 1)
      (show (diagM 1 0).conjTranspose = diagM 1 0 by with_unfolding_all decide)
      (show (diagM (3/4) (1/4)).conjTranspose = diagM (3/4) (1/4) by
        with_unfolding_all decide)
      (show (diagM 0 1).conjTranspose = diagM 0 1 by with_unfolding_all decide)
      (by with_unfolding_all decide)).1,
    (claim_C1 (diagM 1 0) (diagM (3/4) (1/4)) (diagM 0 1)
      (show (diagM 1 0).conjTranspose = diagM 1 0 by with_unfolding_all decide)
      (show (diagM (3/4) (1/4)).conjTranspose = diagM (3/4) (1/4) by
        with_unfolding_all decide)
      (show (diagM 0 1).conjTranspose = diagM 0 1 by with_unfolding_all decide)
      (by with_unfolding_all decide)).2 0⟩

section Optimizers

variable {n : Type} [Fintype n] [DecidableEq n]

/- The optimizers draw fresh random unitaries through `random_unitary_d_fs`
resp. `random_unitary_bs` / `random_unitary_bs_reverse`; the embedding
abstracts the sequence of drawn unitaries into an explicit stream
`us : ℕ → Mat n` (draw number k yields `us k`).  The inner `while` loops of
the source have no intrinsic bound, so they take a fuel argument; all
theorems below hold for every fuel value. -/

/-- The inner `while (new_product_2_3 := product_rot2_3) > product_2_3` loop
shared by `optimize_d_fs` and `optimize_bs` in _complex128.py: while the last
rotation improved on the tracked best, accept it and rotate once more by the
same unitary. -/
def climb : ℕ → Mat n → Mat n → Mat n → ℚ → ℚ → Mat n × ℚ
  | 0, _, _, st, p, _ => (st, p)
  | fuel + 1, u, visState, st, p, prot =>
    if prot > p then
      let st2 := rotate st u
      climb fuel u visState st2 prot (product st2 visState)
    else (st, p)

/-- Embeds `optimize_d_fs` from _complex128.py, also returning the tracked
best overlap `product_2_3`.  Per loop index: draw a unitary, rotate the raw
input state, reverse the unitary if the rotation lost overlap, then hill-climb
with the `while` loop (whose first test still uses the pre-reversal
overlap, exactly as in the source). -/
def optimize_d_fs_full (fuel : ℕ) (us : ℕ → Mat n)
    (new_state visibility_state : Mat n)
    (depth quantity updates_count : ℕ) : Mat n × ℚ :=
  let product_2_3 := product new_state visibility_state
  let unitary0 := us 0
  let rotated0 := rotate new_state unitary0
  (List.range updates_count).foldl
    (fun st idx =>
      let unitary := us (idx + 1)
      let rotated_2 := rotate new_state unitary
      let product_rot2_3 := product rotated_2 visibility_state
      if st.2 > product_rot2_3 then
        let unitary2 := unitary.conjTranspose
        let rotated_2b := rotate new_state unitary2
        climb fuel unitary2 visibility_state rotated_2b st.2 product_rot2_3
      else
        climb fuel unitary visibility_state rotated_2 st.2 product_rot2_3)
    (rotated0, product_2_3)

/-- The state returned by `optimize_d_fs` (the `rotated_2` of the source). -/
def optimize_d_fs (fuel : ℕ) (us : ℕ → Mat n)
    (new_state visibility_state : Mat n)
    (depth quantity updates_count : ℕ) : Mat n :=
  (optimize_d_fs_full fuel us new_state visibility_state depth quantity
    updates_count).1

/-- Embeds `optimize_bs` from _complex128.py, also returning the tracked best
overlap `pp1`.  Differences from `optimize_d_fs` mirrored from the source:
the initial return state is the unrotated input, and `pp2` is recomputed
after a reversal before the `while` loop. -/
def optimize_bs_full (fuel : ℕ) (us : ℕ → Mat n)
    (new_state visibility_state : Mat n)
    (depth quantity updates_count : ℕ) : Mat n × ℚ :=
  let pp1 := product new_state visibility_state
  (List.range updates_count).foldl
    (fun st index =>
      let unitary := us index
      let rs := rotate new_state unitary
      let ur :=
        if st.2 > product rs visibility_state then
          (unitary.conjTranspose, rotate new_state unitary.conjTranspose)
        else (unitary, rs)
      let pp2 := product ur.2 visibility_state
      climb fuel ur.1 visibility_state ur.2 st.2 pp2)
    (new_state, pp1)

/-- The state returned by `optimize_bs` (the `return_state` of the source). -/
def optimize_bs (fuel : ℕ) (us : ℕ → Mat n)
    (new_state visibility_state : Mat n)
    (depth quantity updates_count : ℕ) : Mat n :=
  (optimize_bs_full fuel us new_state visibility_state depth quantity
    updates_count).1

/-- Structural form of the near-identity unitaries built by
`_random_unitary_d_fs`: `_VALUE * |phi><phi| + identity` where
`_VALUE = exp(i*theta) - 1`.  The phase is kept as a parameter because
`exp(0.01*i*pi)` is not a complex rational; instantiating `omega` with any
exact unit-modulus value (e.g. 3/5 + 4/5*i) yields a unitary of the same
form. -/
def nearIdentity (omega : CC) (p : Mat n) : Mat n :=
  (omega - 1) • p + 1

theorem climb_snd_ge (fuel : ℕ) (u visState st : Mat n) (p prot : ℚ) :
    p ≤ (climb fuel u visState st p prot).2 := by
  induction fuel generalizing st p prot with
  | zero => exact le_refl _
  | succ f ih =>
    by_cases h : prot > p
    · simp only [climb, if_pos h]
      exact le_of_lt (lt_of_lt_of_le h (ih _ _ _))
    · simp only [climb, if_neg h]
      exact le_refl _

theorem climb_fst_hermitian (fuel : ℕ) (u visState st : Mat n) (p prot : ℚ)
    (h : st.IsHermitian) : (climb fuel u visState st p prot).1.IsHermitian := by
  induction fuel generalizing st p prot with
  | zero => exact h
  | succ f ih =>
    by_cases hc : prot > p
    · simp only [climb, if_pos hc]
      exact ih _ _ _ (rotate_isHermitian h)
    · simpa only [climb, if_neg hc]

theorem foldl_snd_mono {α : Type} {f : Mat n × ℚ → α → Mat n × ℚ}
    (hf : ∀ st b, st.2 ≤ (f st b).2) :
    ∀ (l : List α) (st : Mat n × ℚ), st.2 ≤ (List.foldl f st l).2 := by
  intro l
  induction l with
  | nil => intro st; exact le_refl _
  | cons b t ih =>
    intro st
    exact le_trans (hf st b) (ih (f st b))

theorem foldl_fst_hermitian {α : Type} {f : Mat n × ℚ → α → Mat n × ℚ}
    (hf : ∀ st b, (f st b).1.IsHermitian) :
    ∀ (l : List α) (st : Mat n × ℚ), st.1.IsHermitian →
      (List.foldl f st l).1.IsHermitian := by
  intro l
  induction l with
  | nil => intro st h; exact h
  | cons b t ih =>
    intro st h
    exact ih (f st b) (hf st b)

theorem optimize_d_fs_hermitian (fuel : ℕ) (us : ℕ → Mat n)
    (new_state visibility_state : Mat n) (depth quantity updates_count : ℕ)
    (h : new_state.IsHermitian) :
    (optimize_d_fs fuel us new_state visibility_state depth quantity
      updates_count).IsHermitian := by
  unfold optimize_d_fs optimize_d_fs_full
  apply foldl_fst_hermitian
  · intro st b
    dsimp only
    by_cases hc : st.2 > product (rotate new_state (us (b + 1))) visibility_state
    · rw [if_pos hc]
      exact climb_fst_hermitian _ _ _ _ _ _ (rotate_isHermitian h)
    · rw [if_neg hc]
      exact climb_fst_hermitian _ _ _ _ _ _ (rotate_isHermitian h)
  · exact rotate_isHermitian h

theorem optimize_bs_hermitian (fuel : ℕ) (us : ℕ → Mat n)
    (new_state visibility_state : Mat n) (depth quantity updates_count : ℕ)
    (h : new_state.IsHermitian) :
    (optimize_bs fuel us new_state visibility_state depth quantity
      updates_count).IsHermitian := by
  unfold optimize_bs optimize_bs_full
  apply foldl_fst_hermitian
  · intro st b
    dsimp only
    by_cases hc : st.2 > product (rotate new_state (us b)) visibility_state
    · rw [if_pos hc]
      exact climb_fst_hermitian _ _ _ _ _ _ (rotate_isHermitian h)
    · rw [if_neg hc]
      exact climb_fst_hermitian _ _ _ _ _ _ (rotate_isHermitian h)
  · exact h

theorem rotate_one (m : Mat n) : rotate m 1 = m := by
  unfold rotate
  rw [Matrix.conjTranspose_one, Matrix.mul_one, Matrix.one_mul]

theorem climb_of_not_gt (fuel : ℕ) (u visState st : Mat n) (p prot : ℚ)
    (h : ¬ prot > p) : climb fuel u visState st p prot = (st, p) := by
  cases fuel with
  | zero => rfl
  | succ f => simp only [climb, if_neg h]

theorem foldl_fixed {α β : Type} {f : α → β → α} {a : α}
    (h : ∀ b, f a b = a) : ∀ l : List β, List.foldl f a l = a := by
  intro l
  induction l with
  | nil => rfl
  | cons b t ih => rw [List.foldl_cons, h b, ih]

/-- With an all-identity unitary stream the FSnQd optimizer is the identity:
every trial rotation is by the identity matrix, never improves, and the
returned state is the input. -/
theorem optimize_d_fs_identity (fuel : ℕ)
    (new_state visibility_state : Mat n) (depth quantity updates_count : ℕ) :
    optimize_d_fs_full fuel (fun _ => (1 : Mat n)) new_state visibility_state
      depth quantity updates_count
      = (new_state, product new_state visibility_state) := by
  simp only [optimize_d_fs_full, rotate_one, Matrix.conjTranspose_one]
  apply foldl_fixed
  intro b
  dsimp only
  rw [if_neg (lt_irrefl _)]
  exact climb_of_not_gt _ _ _ _ _ _ (lt_irrefl _)

/-- C6 (amended): the per-mode optimizer is total and its internally tracked
best overlap (`product_2_3` in `optimize_d_fs`, `pp1` in `optimize_bs`) never
drops below the input overlap `product(rho_2, R)`, for every unitary stream,
fuel and budget; the *returned state* however is the final trial rotation and
its overlap may be smaller than the input's (see the counterexample). -/
theorem claim_C6 {n : Type} [Fintype n] [DecidableEq n] (fuel : ℕ)
    (us : ℕ → Mat n) (new_state visibility_state : Mat n)
    (depth quantity updates_count : ℕ) :
    product new_state visibility_state
        ≤ (optimize_d_fs_full fuel us new_state visibility_state depth
            quantity updates_count).2
      ∧ product new_state visibility_state
        ≤ (optimize_bs_full fuel us new_state visibility_state depth
            quantity updates_count).2 := by
  constructor
  · unfold optimize_d_fs_full
    apply foldl_snd_mono
    intro st b
    dsimp only
    by_cases hc :
      st.2 > product (rotate new_state (us (b + 1))) visibility_state
    · rw [if_pos hc]
      exact climb_snd_ge _ _ _ _ _ _
    · rw [if_neg hc]
      exact climb_snd_ge _ _ _ _ _ _
  · unfold optimize_bs_full
    apply foldl_snd_mono
    intro st b
    dsimp only
    exact climb_snd_ge _ _ _ _ _ _

/-- Counterexample to C6 as stated: with the admissible near-identity unitary
`U = I + (omega - 1)|phi><phi|` for the exact unit phase omega = 3/5 + 4/5*i
and |phi> = (1,1)/sqrt(2), input state rho_2 = diag(1,0) and residual
R = diag(1,0), neither the trial rotation nor its adjoint improves the
overlap, yet `optimize_d_fs` returns a state with strictly smaller overlap
than the input, different from the input. -/
theorem claim_C6_counterexample :
    product
        (optimize_d_fs 5
          (fun _ => nearIdentity ⟨3/5, 4/5⟩
            !![CC.ofQ (1/2), CC.ofQ (1/2); CC.ofQ (1/2), CC.ofQ (1/2)])
          (diagM 1 0) (diagM 1 0) 2 1 1)
        (diagM 1 0)
      < product (diagM 1 0) (diagM 1 0)
    ∧ optimize_d_fs 5
        (fun _ => nearIdentity ⟨3/5, 4/5⟩
          !![CC.ofQ (1/2), CC.ofQ (1/2); CC.ofQ (1/2), CC.ofQ (1/2)])
        (diagM 1 0) (diagM 1 0) 2 1 1
      ≠ diagM 1 0 := by
  with_unfolding_all decide

end Optimizers

/-- The four algorithm modes declared by `AlgoMode` in
src/cssfinder/cssfproject.py. -/
inductive AlgoMode where
  | FSnQd
  | SBiPa
  | G3PaE3qD
  | G4PaE3qD
  deriving DecidableEq

/-- Result of `ModeUtil.new` (src/cssfinder/algorithm/mode_util.py): which
concrete utility subclass was produced. -/
inductive ModeUtilKind where
  | fsnqd
  | sbipa
  deriving DecidableEq

/-- Embeds `ModeUtil.new`: FSnQd and SBiPa produce utility instances, every
other mode raises `NotImplementedError(f"Unsupported mode {mode.name}")`. -/
def modeUtilNew : AlgoMode → Except String ModeUtilKind
  | AlgoMode.FSnQd => Except.ok ModeUtilKind.fsnqd
  | AlgoMode.SBiPa => Except.ok ModeUtilKind.sbipa
  | AlgoMode.G3PaE3qD => Except.error "Unsupported mode G3PaE3qD"
  | AlgoMode.G4PaE3qD => Except.error "Unsupported mode G4PaE3qD"

section Engine

variable {n : Type} [Fintype n] [DecidableEq n]

/-- Inverse of a complex scalar (conjugate over squared modulus); used for
the trace division in the symmetry application. -/
def CC.cinv (z : CC) : CC :=
  ⟨z.re / (z.re * z.re + z.im * z.im), -z.im / (z.re * z.re + z.im * z.im)⟩

/-- Modelled from the spec: the implementation `apply_symmetries` invoked by
`NumPyBase.set_symmetries` and `NumPyBase._update_state` is missing from the
sources (only its call sites exist).  The spec prescribes, per orbit O of the
symmetry set: "rho_1 <- rho_1 + sum over U in O of rotate(rho_1, U); then
rho_1 <- rho_1 / trace(rho_1)". -/
def applySymmetryOrbit (rho : Mat n) (orbit : List (Mat n)) : Mat n :=
  let augmented := rho + (orbit.map (fun u => rotate rho u)).sum
  CC.cinv (Matrix.trace augmented) • augmented

/-- Modelled from the spec: fold `applySymmetryOrbit` over the orbits of the
symmetry set. -/
def applySymmetries (rho : Mat n) (symmetries : List (List (Mat n))) : Mat n :=
  symmetries.foldl applySymmetryOrbit rho

/-- The mutable state of `NumPyBase`
(src/cssfinder/algorithm/backend/numpy/base.py): the noisy target
`_visibility` (rho_v), the intermediate state `_intermediate` (rho_1), the
residual `_visibility_reduced`, the correction list, the configured
symmetries and projection, and the cached inner products `_aa4`, `_aa6`,
`_dd1`. -/
structure EngineState (n : Type) [Fintype n] [DecidableEq n] where
  visibility : Mat n
  intermediate : Mat n
  visibilityReduced : Mat n
  corrections : List (ℕ × ℕ × ℚ)
  symmetries : List (List (Mat n))
  projection : Option (Mat n)
  aa4 : ℚ
  aa6 : ℚ
  dd1 : ℚ

instance : DecidableEq (EngineState n) := fun a b =>
  decidable_of_iff
    (a.visibility = b.visibility ∧ a.intermediate = b.intermediate
      ∧ a.visibilityReduced = b.visibilityReduced
      ∧ a.corrections = b.corrections ∧ a.symmetries = b.symmetries
      ∧ a.projection = b.projection ∧ a.aa4 = b.aa4 ∧ a.aa6 = b.aa6
      ∧ a.dd1 = b.dd1)
    (by
      constructor
      · rintro ⟨h1, h2, h3, h4, h5, h6, h7, h8, h9⟩
        cases a
        cases b
        simp_all
      · intro h
        subst h
        exact ⟨rfl, rfl, rfl, rfl, rfl, rfl, rfl, rfl, rfl⟩)

/-- State with the caches initialized exactly as `NumPyBase.__init__` does
(lines 82-97 of base.py): `aa4 = 2*product(visibility, intermediate)`,
`aa6 = product(intermediate, intermediate)`,
`visibility_reduced = visibility - intermediate`,
`dd1 = product(intermediate, visibility_reduced)`. -/
def mkState (visibility intermediate : Mat n)
    (corrections : List (ℕ × ℕ × ℚ)) (symmetries : List (List (Mat n)))
    (projection : Option (Mat n)) : EngineState n :=
  { visibility := visibility
    intermediate := intermediate
    visibilityReduced := visibility - intermediate
    corrections := corrections
    symmetries := symmetries
    projection := projection
    aa4 := 2 * product visibility intermediate
    aa6 := product intermediate intermediate
    dd1 := product intermediate (visibility - intermediate) }

/-- Embeds `NumPyBase.set_symmetries`: store the symmetry set and, when it is
non-empty, immediately apply it once to the intermediate state. -/
def setSymmetries (s : EngineState n) (symmetries : List (List (Mat n))) :
    EngineState n :=
  let s1 := { s with symmetries := symmetries }
  if symmetries.isEmpty then s1
  else { s1 with intermediate := applySymmetries s1.intermediate symmetries }

/-- Embeds `NumPyBase.set_projection`: store the projection and rotate the
intermediate state by it once. -/
def setProjection (s : EngineState n) (projection : Mat n) : EngineState n :=
  { s with
    projection := some projection
    intermediate := rotate s.intermediate projection }

/-- The per-mode optimization step at the top of `_update_state`: FSnQd and
SBiPa run their optimizer on the candidate; for any other mode the candidate
is left unchanged (the source has no `else` branch). -/
def optimizedCandidate (fuel : ℕ) (us : ℕ → Mat n) (mode : AlgoMode)
    (depth quantity : ℕ) (visibilityReduced alternative_state : Mat n)
    (epochs : ℕ) : Mat n :=
  match mode with
  | AlgoMode.FSnQd =>
    optimize_d_fs fuel us alternative_state visibilityReduced depth quantity
      epochs
  | AlgoMode.SBiPa =>
    optimize_bs fuel us alternative_state visibilityReduced depth quantity
      epochs
  | _ => alternative_state

/-- The intermediate state after the symmetry/projection block of
`_update_state` (base.py lines 237-242): apply the symmetries when
configured, then the projection when configured.  Note this happens *before*
the Gilbert coefficient is computed and tested. -/
def symProjIntermediate (s : EngineState n) : Mat n :=
  let im1 :=
    if s.symmetries.isEmpty then s.intermediate
    else applySymmetries s.intermediate s.symmetries
  match s.projection with
  | some p => rotate im1 p
  | none => im1

/-- The Gilbert coefficient `cc1` as `_update_state` computes it: `aa5` uses
the symmetry/projection-adjusted intermediate state while `_aa4` and `_aa6`
are the caches from before that adjustment. -/
def updateCoefficient (s : EngineState n) (alt : Mat n) : ℚ :=
  let aa3 := product alt alt
  let aa2 := 2 * product s.visibility alt
  let aa5 := 2 * product (symProjIntermediate s) alt
  let bb2 := -s.aa4 + aa2 + aa5 - 2 * aa3
  let bb3 := s.aa6 - aa5 + aa3
  let cc1 := -bb2 / (2 * bb3)
  cc1

/-- Embeds `NumPyBase._update_state` (base.py lines 209-277): optimize the
candidate, apply symmetries/projection to the intermediate state, compute the
Gilbert coefficient; if it lies in [0,1] move to the convex combination,
refresh the residual and the caches and append a correction record, else keep
the (already symmetry/projection-adjusted) state. -/
def updateState (fuel : ℕ) (us : ℕ → Mat n) (mode : AlgoMode)
    (depth quantity : ℕ) (s : EngineState n) (alternative_state : Mat n)
    (iterations epoch_index epochs iteration_index : ℕ) : EngineState n :=
  let alt := optimizedCandidate fuel us mode depth quantity
    s.visibilityReduced alternative_state epochs
  let intermediate2 := symProjIntermediate s
  let cc1 := updateCoefficient s alt
  if 0 ≤ cc1 ∧ cc1 ≤ 1 then
    let newIntermediate :=
      CC.ofQ cc1 • intermediate2 + CC.ofQ (1 - cc1) • alt
    let newVisReduced := s.visibility - newIntermediate
    let newAa4 := 2 * product s.visibility newIntermediate
    let newAa6 := product newIntermediate newIntermediate
    { s with
      intermediate := newIntermediate
      visibilityReduced := newVisReduced
      aa4 := newAa4
      aa6 := newAa6
      dd1 := newAa4 / 2 - newAa6
      corrections := s.corrections ++
        [(epoch_index * iterations + iteration_index + 1,
          s.corrections.length + 1,
          product newVisReduced newVisReduced)] }
  else
    { s with intermediate := intermediate2 }

/-- The candidate draw of one `run_epoch` iteration: FSnQd draws via
`random_d_fs`, SBiPa via `random_bs` (the drawn state is abstracted into
`draw`); for every other mode no branch assigns `alternative_state`, so the
following use of it raises `NameError` - modelled as `none`. -/
def sampleCandidate (mode : AlgoMode) (draw : Mat n) : Option (Mat n) :=
  match mode with
  | AlgoMode.FSnQd => some draw
  | AlgoMode.SBiPa => some draw
  | _ => none

/-- The iteration loop of `run_epoch` over the remaining iteration indices:
draw a candidate, and when `product(candidate, visibility_reduced) > dd1`
run `_update_state` on it. -/
def runEpochGo (fuel : ℕ) (us : ℕ → ℕ → Mat n) (draws : ℕ → Mat n)
    (mode : AlgoMode) (depth quantity iterations epoch_index : ℕ) :
    List ℕ → EngineState n → Except String (EngineState n)
  | [], s => Except.ok s
  | idx :: rest, s =>
    match sampleCandidate mode (draws idx) with
    | none =>
      Except.error "NameError: alternative_state referenced before assignment"
    | some alt =>
      let s2 :=
        if product alt s.visibilityReduced > s.dd1 then
          updateState fuel (us idx) mode depth quantity s alt iterations
            epoch_index (20 * depth * depth * quantity) idx
        else s
      runEpochGo fuel us draws mode depth quantity iterations epoch_index
        rest s2

/-- Embeds `NumPyBase.run_epoch`: run `iterations` iterations with
`epochs = 20 * depth * depth * quantity` as the optimizer budget, without
checking any stop condition.  `draws idx` abstracts the random state sampled
at iteration `idx`, `us idx` the unitary draws consumed by the optimizer in
that iteration. -/
def runEpoch (fuel : ℕ) (us : ℕ → ℕ → Mat n) (draws : ℕ → Mat n)
    (mode : AlgoMode) (depth quantity : ℕ) (s : EngineState n)
    (iterations epoch_index : ℕ) : Except String (EngineState n) :=
  runEpochGo fuel us draws mode depth quantity iterations epoch_index
    (List.range iterations) s

end Engine

section UpdateClaims

variable {n : Type} [Fintype n] [DecidableEq n]

theorem residualAt_one (rhoV rho1 rho2 : Mat n) :
    residualAt rhoV rho1 rho2 1 = rhoV - rho1 := by
  unfold residualAt
  ext i j
  simp only [Matrix.sub_apply, Matrix.add_apply, Matrix.smul_apply,
    smul_eq_mul]
  apply CC.ext_re_im <;> simp [CC.ofQ] <;> ring

theorem residualAt_self (rhoV rho1 : Mat n) (c : ℚ) :
    residualAt rhoV rho1 rho1 c = rhoV - rho1 := by
  unfold residualAt
  ext i j
  simp only [Matrix.sub_apply, Matrix.add_apply, Matrix.smul_apply,
    smul_eq_mul]
  apply CC.ext_re_im <;> simp [CC.ofQ] <;> ring

theorem symProjIntermediate_id {s : EngineState n} (hsym : s.symmetries = [])
    (hproj : s.projection = none) : symProjIntermediate s = s.intermediate := by
  unfold symProjIntermediate
  rw [hsym, hproj]
  rfl

theorem symProjIntermediate_sym {s : EngineState n}
    (hs : s.symmetries ≠ []) (hp : s.projection = none) :
    symProjIntermediate s = applySymmetries s.intermediate s.symmetries := by
  unfold symProjIntermediate
  rw [hp]
  cases hsym : s.symmetries with
  | nil => exact absurd hsym hs
  | cons a t => rfl

theorem updateCoefficient_coherent {s : EngineState n} (alt : Mat n)
    (hsym : s.symmetries = []) (hproj : s.projection = none)
    (haa4 : s.aa4 = 2 * product s.visibility s.intermediate)
    (haa6 : s.aa6 = product s.intermediate s.intermediate) :
    updateCoefficient s alt
      = gilbertCoefficient s.visibility s.intermediate alt := by
  simp only [updateCoefficient, gilbertCoefficient,
    symProjIntermediate_id hsym hproj, haa4, haa6]

theorem optimizedCandidate_hermitian (fuel : ℕ) (us : ℕ → Mat n)
    (mode : AlgoMode) (depth quantity : ℕ) (vr alt : Mat n) (epochs : ℕ)
    (h : alt.IsHermitian) :
    (optimizedCandidate fuel us mode depth quantity vr alt epochs).IsHermitian
    := by
  cases mode with
  | FSnQd => exact optimize_d_fs_hermitian fuel us alt vr depth quantity epochs h
  | SBiPa => exact optimize_bs_hermitian fuel us alt vr depth quantity epochs h
  | G3PaE3qD => exact h
  | G4PaE3qD => exact h

/-- C2 (amended): when no symmetries and no projection are configured, an
`_update_state` call never increases the residual squared norm
`product(visibility_reduced, visibility_reduced)`, whatever the candidate,
mode and optimizer randomness (exact arithmetic; the state's caches are the
ones the engine maintains).  With a configured symmetry set or projection the
monotonicity fails: see the counterexample. -/
theorem claim_C2 (fuel : ℕ) (us : ℕ → Mat n) (mode : AlgoMode)
    (depth quantity : ℕ) (s : EngineState n) (alt : Mat n)
    (iterations epoch_index epochs iteration_index : ℕ)
    (h1 : s.intermediate.IsHermitian) (halt : alt.IsHermitian)
    (hsym : s.symmetries = []) (hproj : s.projection = none)
    (haa4 : s.aa4 = 2 * product s.visibility s.intermediate)
    (haa6 : s.aa6 = product s.intermediate s.intermediate)
    (hvr : s.visibilityReduced = s.visibility - s.intermediate) :
    product
        (updateState fuel us mode depth quantity s alt iterations epoch_index
          epochs iteration_index).visibilityReduced
        (updateState fuel us mode depth quantity s alt iterations epoch_index
          epochs iteration_index).visibilityReduced
      ≤ product s.visibilityReduced s.visibilityReduced := by
  simp only [updateState]
  set alt2 := optimizedCandidate fuel us mode depth quantity
    s.visibilityReduced alt epochs with halt2eq
  have haltH : alt2.IsHermitian := by
    rw [halt2eq]
    exact optimizedCandidate_hermitian fuel us mode depth quantity
      s.visibilityReduced alt epochs halt
  by_cases hacc : 0 ≤ updateCoefficient s alt2 ∧ updateCoefficient s alt2 ≤ 1
  · rw [if_pos hacc]
    dsimp only
    rw [symProjIntermediate_id hsym hproj,
      updateCoefficient_coherent alt2 hsym hproj haa4 haa6, hvr]
    show sqNorm (residualAt s.visibility s.intermediate alt2
        (gilbertCoefficient s.visibility s.intermediate alt2))
      ≤ sqNorm (s.visibility - s.intermediate)
    rcases eq_or_ne s.intermediate alt2 with heq | hne
    · rw [← heq, residualAt_self]
    · calc sqNorm (residualAt s.visibility s.intermediate alt2
            (gilbertCoefficient s.visibility s.intermediate alt2))
          ≤ sqNorm (residualAt s.visibility s.intermediate alt2 1) :=
            gilbertCoefficient_min s.visibility s.intermediate alt2 h1 haltH
              hne 1
        _ = sqNorm (s.visibility - s.intermediate) := by rw [residualAt_one]
  · rw [if_neg hacc]

/-- C3 (amended): when the computed Gilbert coefficient falls outside [0,1]
the candidate is discarded: the correction list and the caches aa4, aa6, dd1
and the residual are unchanged in every configuration; and when no symmetries
and no projection are configured the whole engine state is unchanged.  With a
configured symmetry set or projection, however, `rho_1` is still transformed
by them even for the discarded candidate: see the counterexample. -/
theorem claim_C3 (fuel : ℕ) (us : ℕ → Mat n) (mode : AlgoMode)
    (depth quantity : ℕ) (s : EngineState n) (alt : Mat n)
    (iterations epoch_index epochs iteration_index : ℕ)
    (hrej : ¬ (0 ≤ updateCoefficient s
        (optimizedCandidate fuel us mode depth quantity s.visibilityReduced
          alt epochs)
      ∧ updateCoefficient s
        (optimizedCandidate fuel us mode depth quantity s.visibilityReduced
          alt epochs) ≤ 1)) :
    ((updateState fuel us mode depth quantity s alt iterations epoch_index
        epochs iteration_index).corrections = s.corrections
      ∧ (updateState fuel us mode depth quantity s alt iterations epoch_index
          epochs iteration_index).aa4 = s.aa4
      ∧ (updateState fuel us mode depth quantity s alt iterations epoch_index
          epochs iteration_index).aa6 = s.aa6
      ∧ (updateState fuel us mode depth quantity s alt iterations epoch_index
          epochs iteration_index).dd1 = s.dd1
      ∧ (updateState fuel us mode depth quantity s alt iterations epoch_index
          epochs iteration_index).visibilityReduced = s.visibilityReduced)
    ∧ (s.symmetries = [] → s.projection = none →
        updateState fuel us mode depth quantity s alt iterations epoch_index
          epochs iteration_index = s) := by
  constructor
  · simp only [updateState]
    rw [if_neg hrej]
    exact ⟨rfl, rfl, rfl, rfl, rfl⟩
  · intro hsym hproj
    simp only [updateState]
    rw [if_neg hrej, symProjIntermediate_id hsym hproj]

end UpdateClaims

/-- The 2x2 swap (Pauli X) matrix: an exact unitary used as the configured
projection in counterexamples. -/
def swapM : Mat (Fin 2) := !![0, 1; 1, 0]

/-- A reachable-style engine state for the C2 counterexample: coherent caches
for rho_v = diag(1,0), rho_1 = diag(3/4,1/4), a previous correction record
carrying the current residual squared norm 1/8, no symmetries, and the swap
matrix configured as projection. -/
def stateC2 : EngineState (Fin 2) :=
  mkState (diagM 1 0) (diagM (3/4) (1/4)) [(1, 1, 1/8)] [] (some swapM)

/-- The state after one `_update_state` call on `stateC2` with candidate
diag(1,0) (a rank-1 projector) and an identity optimizer stream, with the
budget `epochs = 20*2*2*1 = 80` that `run_epoch` passes for depth 2,
quantity 1. -/
def stateC2' : EngineState (Fin 2) :=
  updateState 5 (fun _ => 1) AlgoMode.FSnQd 2 1 stateC2 (diagM 1 0) 1 1 80 0

set_option maxRecDepth 10000 in
/-- Counterexample to C2 as stated: with a configured projection the
candidate passes the `run_epoch` acceptance test, the Gilbert update is
accepted (cc1 = 4/9, a correction is recorded), yet the recorded residual
squared norm rises from 1/8 to 2/9, because `_update_state` rotates `rho_1`
by the projection *before* computing the coefficient while `aa4` and `aa6`
are still the caches of the unrotated state. -/
theorem claim_C2_counterexample :
    product (diagM 1 0) stateC2.visibilityReduced > stateC2.dd1
      ∧ stateC2'.corrections
        = stateC2.corrections
          ++ [(2, 2, product stateC2'.visibilityReduced
                stateC2'.visibilityReduced)]
      ∧ product stateC2'.visibilityReduced stateC2'.visibilityReduced
        > product stateC2.visibilityReduced stateC2.visibilityReduced := by
  with_unfolding_all decide

/-- Witness for C2 (amended) at a concrete coherent state without symmetries
or projection: rho_v = diag(1,0), rho_1 = diag(1/2,1/2), candidate
diag(1,0). -/
theorem claim_C2_witness :
    product
        (updateState 1 (fun _ => 1) AlgoMode.FSnQd 2 1
          (mkState (diagM 1 0) (diagM (1/2) (1/2)) [] [] none) (diagM 1 0)
          1 0 80 0).visibilityReduced
        (updateState 1 (fun _ => 1) AlgoMode.FSnQd 2 1
          (mkState (diagM 1 0) (diagM (1/2) (1/2)) [] [] none) (diagM 1 0)
          1 0 80 0).visibilityReduced
      ≤ product (mkState (diagM 1 0) (diagM (1/2) (1/2)) [] []
          (none : Option (Mat (Fin 2)))).visibilityReduced
        (mkState (diagM 1 0) (diagM (1/2) (1/2)) [] []
          (none : Option (Mat (Fin 2)))).visibilityReduced :=
  claim_C2 1 (fun _ => 1) AlgoMode.FSnQd 2 1
    (mkState (diagM 1 0) (diagM (1/2) (1/2)) [] [] none) (diagM 1 0) 1 0 80 0
    (show (diagM (1/2) (1/2)).conjTranspose = diagM (1/2) (1/2) by
      with_unfolding_all decide)
    (show (diagM 1 0).conjTranspose = diagM 1 0 by with_unfolding_all decide)
    rfl rfl rfl rfl rfl

/-- The engine state for the C3 counterexample: coherent caches for
rho_v = diag(3/4,1/4), rho_1 = diag(1/4,3/4), no symmetries, swap projection
configured. -/
def stateC3 : EngineState (Fin 2) :=
  mkState (diagM (3/4) (1/4)) (diagM (1/4) (3/4)) [] [] (some swapM)

/-- The state after one `_update_state` call on `stateC3` with candidate
diag(1,0) and an identity optimizer stream. -/
def stateC3' : EngineState (Fin 2) :=
  updateState 5 (fun _ => 1) AlgoMode.FSnQd 2 1 stateC3 (diagM 1 0) 1 1 80 0

set_option maxRecDepth 10000 in
/-- Counterexample to C3 as stated: with a configured projection, a candidate
that passes the `run_epoch` test but whose Gilbert coefficient is -1 (outside
[0,1]) is discarded - no correction is appended and the caches are kept - yet
`rho_1` (the intermediate state) is *not* left unchanged: it has been rotated
by the projection before the coefficient test. -/
theorem claim_C3_counterexample :
    product (diagM 1 0) stateC3.visibilityReduced > stateC3.dd1
      ∧ ¬ (0 ≤ updateCoefficient stateC3
            (optimizedCandidate 5 (fun _ => 1) AlgoMode.FSnQd 2 1
              stateC3.visibilityReduced (diagM 1 0) 80)
          ∧ updateCoefficient stateC3
            (optimizedCandidate 5 (fun _ => 1) AlgoMode.FSnQd 2 1
              stateC3.visibilityReduced (diagM 1 0) 80) ≤ 1)
      ∧ stateC3'.corrections = stateC3.corrections
      ∧ stateC3'.aa4 = stateC3.aa4
      ∧ stateC3'.intermediate ≠ stateC3.intermediate := by
  with_unfolding_all decide

set_option maxRecDepth 10000 in
/-- Witness for C3 (amended) at a concrete state without symmetries or
projection where the coefficient is 2 (outside [0,1]): the update leaves the
whole state unchanged. -/
theorem claim_C3_witness :
    ((updateState 1 (fun _ => 1) AlgoMode.FSnQd 2 1
        (mkState (diagM 1 0) (diagM (1/2) (1/2)) [] [] none) (diagM 0 1)
        1 0 80 0).corrections
      = (mkState (diagM 1 0) (diagM (1/2) (1/2)) [] []
          (none : Option (Mat (Fin 2)))).corrections
      ∧ (updateState 1 (fun _ => 1) AlgoMode.FSnQd 2 1
          (mkState (diagM 1 0) (diagM (1/2) (1/2)) [] [] none) (diagM 0 1)
          1 0 80 0).aa4
        = (mkState (diagM 1 0) (diagM (1/2) (1/2)) [] []
            (none : Option (Mat (Fin 2)))).aa4
      ∧ (updateState 1 (fun _ => 1) AlgoMode.FSnQd 2 1
          (mkState (diagM 1 0) (diagM (1/2) (1/2)) [] [] none) (diagM 0 1)
          1 0 80 0).aa6
        = (mkState (diagM 1 0) (diagM (1/2) (1/2)) [] []
            (none : Option (Mat (Fin 2)))).aa6
      ∧ (updateState 1 (fun _ => 1) AlgoMode.FSnQd 2 1
          (mkState (diagM 1 0) (diagM (1/2) (1/2)) [] [] none) (diagM 0 1)
          1 0 80 0).dd1
        = (mkState (diagM 1 0) (diagM (1/2) (1/2)) [] []
            (none : Option (Mat (Fin 2)))).dd1
      ∧ (updateState 1 (fun _ => 1) AlgoMode.FSnQd 2 1
          (mkState (diagM 1 0) (diagM (1/2) (1/2)) [] [] none) (diagM 0 1)
          1 0 80 0).visibilityReduced
        = (mkState (diagM 1 0) (diagM (1/2) (1/2)) [] []
            (none : Option (Mat (Fin 2)))).visibilityReduced)
    ∧ ((mkState (diagM 1 0) (diagM (1/2) (1/2)) [] []
          (none : Option (Mat (Fin 2)))).symmetries = []
        → (mkState (diagM 1 0) (diagM (1/2) (1/2)) [] []
            (none : Option (Mat (Fin 2)))).projection = none
        → updateState 1 (fun _ => 1) AlgoMode.FSnQd 2 1
            (mkState (diagM 1 0) (diagM (1/2) (1/2)) [] [] none) (diagM 0 1)
            1 0 80 0
          = mkState (diagM 1 0) (diagM (1/2) (1/2)) [] [] none) :=
  claim_C3 1 (fun _ => 1) AlgoMode.FSnQd 2 1
    (mkState (diagM 1 0) (diagM (1/2) (1/2)) [] [] none) (diagM 0 1) 1 0 80 0
    (by with_unfolding_all decide)

section SymmetryAndModeClaims

variable {n : Type} [Fintype n] [DecidableEq n]

/-- C8: with a non-empty symmetry set S, `set_symmetries` transforms rho_1
once at startup by the orbit rule (spec-modelled `applySymmetries`), and
`_update_state` re-applies the same transformation: after any update call the
intermediate state is either exactly the symmetrized old rho_1 (candidate
discarded) or the convex combination `c*sym(rho_1) + (1-c)*rho_2` with the
accepted coefficient c in [0,1] (no projection configured). -/
theorem claim_C8 (s0 s : EngineState n) (symmetries : List (List (Mat n)))
    (fuel : ℕ) (us : ℕ → Mat n) (mode : AlgoMode) (depth quantity : ℕ)
    (alt : Mat n) (iterations epoch_index epochs iteration_index : ℕ)
    (h0 : symmetries ≠ []) (hs : s.symmetries ≠ [])
    (hp : s.projection = none) :
    (setSymmetries s0 symmetries).intermediate
        = applySymmetries s0.intermediate symmetries
      ∧ ((updateState fuel us mode depth quantity s alt iterations epoch_index
            epochs iteration_index).intermediate
          = applySymmetries s.intermediate s.symmetries
        ∨ ∃ c : ℚ, 0 ≤ c ∧ c ≤ 1 ∧ ∃ a : Mat n,
            (updateState fuel us mode depth quantity s alt iterations
              epoch_index epochs iteration_index).intermediate
              = CC.ofQ c • applySymmetries s.intermediate s.symmetries
                + CC.ofQ (1 - c) • a) := by
  constructor
  · unfold setSymmetries
    cases hsym : symmetries with
    | nil => exact absurd hsym h0
    | cons a t => rfl
  · simp only [updateState]
    by_cases hacc : 0 ≤ updateCoefficient s
        (optimizedCandidate fuel us mode depth quantity s.visibilityReduced
          alt epochs)
      ∧ updateCoefficient s
        (optimizedCandidate fuel us mode depth quantity s.visibilityReduced
          alt epochs) ≤ 1
    · rw [if_pos hacc]
      right
      refine ⟨updateCoefficient s
        (optimizedCandidate fuel us mode depth quantity s.visibilityReduced
          alt epochs), hacc.1, hacc.2,
        optimizedCandidate fuel us mode depth quantity s.visibilityReduced
          alt epochs, ?_⟩
      dsimp only
      rw [symProjIntermediate_sym hs hp]
    · rw [if_neg hacc]
      dsimp only
      left
      exact symProjIntermediate_sym hs hp

/-- Witness for C8 at the concrete symmetry set [[swap]] and a concrete
engine state carrying it. -/
theorem claim_C8_witness :
    (setSymmetries (mkState (diagM 1 0) (diagM (3/4) (1/4)) [] [] none)
        [[swapM]]).intermediate
      = applySymmetries
          (mkState (diagM 1 0) (diagM (3/4) (1/4)) [] []
            (none : Option (Mat (Fin 2)))).intermediate [[swapM]]
    ∧ ((updateState 1 (fun _ => 1) AlgoMode.FSnQd 2 1
          (mkState (diagM 1 0) (diagM (3/4) (1/4)) [] [[swapM]] none)
          (diagM 1 0) 1 0 80 0).intermediate
        = applySymmetries
            (mkState (diagM 1 0) (diagM (3/4) (1/4)) [] [[swapM]]
              (none : Option (Mat (Fin 2)))).intermediate
            (mkState (diagM 1 0) (diagM (3/4) (1/4)) [] [[swapM]]
              (none : Option (Mat (Fin 2)))).symmetries
      ∨ ∃ c : ℚ, 0 ≤ c ∧ c ≤ 1 ∧ ∃ a : Mat (Fin 2),
          (updateState 1 (fun _ => 1) AlgoMode.FSnQd 2 1
            (mkState (diagM 1 0) (diagM (3/4) (1/4)) [] [[swapM]] none)
            (diagM 1 0) 1 0 80 0).intermediate
            = CC.ofQ c • applySymmetries
                (mkState (diagM 1 0) (diagM (3/4) (1/4)) [] [[swapM]]
                  (none : Option (Mat (Fin 2)))).intermediate
                (mkState (diagM 1 0) (diagM (3/4) (1/4)) [] [[swapM]]
                  (none : Option (Mat (Fin 2)))).symmetries
              + CC.ofQ (1 - c) • a) :=
  claim_C8 (mkState (diagM 1 0) (diagM (3/4) (1/4)) [] [] none)
    (mkState (diagM 1 0) (diagM (3/4) (1/4)) [] [[swapM]] none)
    [[swapM]] 1 (fun _ => 1) AlgoMode.FSnQd 2 1 (diagM 1 0) 1 0 80 0
    (by simp) (by simp [mkState]) rfl

theorem runEpochGo_ok (fuel : ℕ) (us : ℕ → ℕ → Mat n) (draws : ℕ → Mat n)
    (mode : AlgoMode) (depth quantity iterations epoch_index : ℕ)
    (hm : mode = AlgoMode.FSnQd ∨ mode = AlgoMode.SBiPa) :
    ∀ (l : List ℕ) (s : EngineState n), ∃ s2,
      runEpochGo fuel us draws mode depth quantity iterations epoch_index l s
        = Except.ok s2 := by
  intro l
  induction l with
  | nil => intro s; exact ⟨s, rfl⟩
  | cons idx rest ih =>
    intro s
    have hsample : sampleCandidate mode (draws idx) = some (draws idx) := by
      rcases hm with h | h <;> subst h <;> rfl
    simp only [runEpochGo, hsample]
    exact ih _

/-- C9 (amended): only FSnQd and SBiPa are executable.  `ModeUtil.new`
succeeds exactly for these two modes; `run_epoch` completes without error for
them (for any iteration count, state and randomness), while for G3PaE3qD and
G4PaE3qD any epoch with at least one iteration hits the unbound
`alternative_state` (no sampler branch assigns it). -/
theorem claim_C9 (fuel : ℕ) (us : ℕ → ℕ → Mat n) (draws : ℕ → Mat n)
    (depth quantity : ℕ) (s : EngineState n) (iterations epoch_index : ℕ) :
    (∀ mode, (∃ k, modeUtilNew mode = Except.ok k)
        ↔ (mode = AlgoMode.FSnQd ∨ mode = AlgoMode.SBiPa))
      ∧ (∀ mode, (mode = AlgoMode.FSnQd ∨ mode = AlgoMode.SBiPa) →
          ∃ s2, runEpoch fuel us draws mode depth quantity s iterations
            epoch_index = Except.ok s2)
      ∧ (∀ mode, ¬ (mode = AlgoMode.FSnQd ∨ mode = AlgoMode.SBiPa) →
          1 ≤ iterations →
          runEpoch fuel us draws mode depth quantity s iterations epoch_index
            = Except.error
              "NameError: alternative_state referenced before assignment") := by
  refine ⟨?_, ?_, ?_⟩
  · intro mode
    cases mode with
    | FSnQd =>
      exact ⟨fun _ => Or.inl rfl, fun _ => ⟨ModeUtilKind.fsnqd, rfl⟩⟩
    | SBiPa =>
      exact ⟨fun _ => Or.inr rfl, fun _ => ⟨ModeUtilKind.sbipa, rfl⟩⟩
    | G3PaE3qD =>
      constructor
      · rintro ⟨k, hk⟩
        exact absurd hk (by simp [modeUtilNew])
      · rintro (h | h) <;> exact absurd h (by simp)
    | G4PaE3qD =>
      constructor
      · rintro ⟨k, hk⟩
        exact absurd hk (by simp [modeUtilNew])
      · rintro (h | h) <;> exact absurd h (by simp)
  · intro mode hm
    exact runEpochGo_ok fuel us draws mode depth quantity iterations
      epoch_index hm (List.range iterations) s
  · intro mode hbad hiter
    have hnone : sampleCandidate mode (draws 0) = (none : Option (Mat n)) := by
      cases mode with
      | FSnQd => exact absurd (Or.inl rfl) hbad
      | SBiPa => exact absurd (Or.inr rfl) hbad
      | G3PaE3qD => rfl
      | G4PaE3qD => rfl
    cases iterations with
    | zero => exact absurd hiter (by decide)
    | succ m =>
      unfold runEpoch
      rw [List.range_succ_eq_map]
      simp only [runEpochGo, hnone]

/-- Counterexample to C9 as stated: mode G3PaE3qD raises
`NotImplementedError` in `ModeUtil.new`, and a one-iteration epoch in that
mode hits the unbound `alternative_state`. -/
theorem claim_C9_counterexample :
    modeUtilNew AlgoMode.G3PaE3qD = Except.error "Unsupported mode G3PaE3qD"
      ∧ runEpoch 1 (fun _ _ => (1 : Mat (Fin 2))) (fun _ => diagM 1 0)
          AlgoMode.G3PaE3qD 2 1
          (mkState (diagM 1 0) (diagM (1/2) (1/2)) [] [] none) 1 0
        = Except.error
          "NameError: alternative_state referenced before assignment" :=
  ⟨rfl, rfl⟩

/-- Witness for C9 (amended) at mode FSnQd with concrete state and streams. -/
theorem claim_C9_witness :
    (∃ k, modeUtilNew AlgoMode.FSnQd = Except.ok k)
      ∧ ∃ s2, runEpoch 1 (fun _ _ => (1 : Mat (Fin 2))) (fun _ => diagM 1 0)
          AlgoMode.FSnQd 2 1
          (mkState (diagM 1 0) (diagM (1/2) (1/2)) [] [] none) 1 0
          = Except.ok s2 :=
  ⟨((claim_C9 1 (fun _ _ => (1 : Mat (Fin 2))) (fun _ => diagM 1 0) 2 1
      (mkState (diagM 1 0) (diagM (1/2) (1/2)) [] [] none) 1 0).1
      AlgoMode.FSnQd).mpr (Or.inl rfl),
    (claim_C9 1 (fun _ _ => (1 : Mat (Fin 2))) (fun _ => diagM 1 0) 2 1
      (mkState (diagM 1 0) (diagM (1/2) (1/2)) [] [] none) 1 0).2.1
      AlgoMode.FSnQd (Or.inl rfl)⟩

end SymmetryAndModeClaims

/-- The prime table `PRIMES` (all primes below 2000).  `mode_util.py` imports
it from `cssfinder.constants`, whose file is not among the sources; the two
in-source copies of the table (CSSFinder.py and cssfinder/modes.py) are
identical and are reproduced here. -/
def PRIMES : List ℕ :=
  [
  2, 3, 5, 7, 11, 13, 17, 19, 23, 29, 31, 37, 41, 43, 47, 53, 59, 61, 67,
  71, 73, 79, 83, 89, 97, 101, 103, 107, 109, 113, 127, 131, 137, 139, 149,
  151, 157, 163, 167, 173, 179, 181, 191, 193, 197, 199, 211, 223, 227, 229,
  233, 239, 241, 251, 257, 263, 269, 271, 277, 281, 283, 293, 307, 311, 313,
  317, 331, 337, 347, 349, 353, 359, 367, 373, 379, 383, 389, 397, 401, 409,
  419, 421, 431, 433, 439, 443, 449, 457, 461, 463, 467, 479, 487, 491, 499,
  503, 509, 521, 523, 541, 547, 557, 563, 569, 571, 577, 587, 593, 599, 601,
  607, 613, 617, 619, 631, 641, 643, 647, 653, 659, 661, 673, 677, 683, 691,
  701, 709, 719, 727, 733, 739, 743, 751, 757, 761, 769, 773, 787, 797, 809,
  811, 821, 823, 827, 829, 839, 853, 857, 859, 863, 877, 881, 883, 887, 907,
  911, 919, 929, 937, 941, 947, 953, 967, 971, 977, 983, 991, 997, 1009,
  1013, 1019, 1021, 1031, 1033, 1039, 1049, 1051, 1061, 1063, 1069, 1087,
  1091, 1093, 1097, 1103, 1109, 1117, 1123, 1129, 1151, 1153, 1163, 1171,
  1181, 1187, 1193, 1201, 1213, 1217, 1223, 1229, 1231, 1237, 1249, 1259,
  1277, 1279, 1283, 1289, 1291, 1297, 1301, 1303, 1307, 1319, 1321, 1327,
  1361, 1367, 1373, 1381, 1399, 1409, 1423, 1427, 1429, 1433, 1439, 1447,
  1451, 1453, 1459, 1471, 1481, 1483, 1487, 1489, 1493, 1499, 1511, 1523,
  1531, 1543, 1549, 1553, 1559, 1567, 1571, 1579, 1583, 1597, 1601, 1607,
  1609, 1613, 1619, 1621, 1627, 1637, 1657, 1663, 1667, 1669, 1693, 1697,
  1699, 1709, 1721, 1723, 1733, 1741, 1747, 1753, 1759, 1777, 1783, 1787,
  1789, 1801, 1811, 1823, 1831, 1847, 1861, 1867, 1871, 1873, 1877, 1879,
  1889, 1901, 1907, 1913, 1931, 1933, 1949, 1951, 1973, 1979, 1987, 1993,
  1997, 1999
  ]

/-- The `Dimensions` container of mode_util.py. -/
structure Dimensions where
  depth : ℕ
  quantity : ℕ
  deriving DecidableEq

/-- The loop of `FSnQdUtil.detect_depth_and_quantity`
(src/cssfinder/algorithm/mode_util.py, lines 165-178).  The source computes
`quantity = int(math.log(total, depth))` - already truncated to an integer
(`Nat.log depth total` is that floor in exact arithmetic) - so its test
`quantity == int(quantity)` compares the truncated value with itself and is
always true: the loop returns at the *first* prime.  `none` models the
`UndefinedSystemSizeError` raise after the loop. -/
def FSnQdDetectLoop : List ℕ → ℕ → Option Dimensions
  | [], _ => none
  | depth :: rest, total =>
    let quantity := Nat.log depth total
    if quantity = quantity then some ⟨depth, quantity⟩
    else FSnQdDetectLoop rest total

/-- Embeds `FSnQdUtil.detect_depth_and_quantity`. -/
def detect_depth_and_quantity (total : ℕ) : Option Dimensions :=
  FSnQdDetectLoop PRIMES total

/-- The detector as the spec words it (the refinement target): "find smallest
prime d with log_d(D) integer; set n = log_d D" - i.e. return the first prime
of the table whose integer floor-logarithm is exact. -/
def FSnQdDetectSpecLoop : List ℕ → ℕ → Option Dimensions
  | [], _ => none
  | depth :: rest, total =>
    if depth ^ Nat.log depth total = total then
      some ⟨depth, Nat.log depth total⟩
    else FSnQdDetectSpecLoop rest total

/-- The spec's intended detector over the same prime table. -/
def detect_depth_and_quantity_spec (total : ℕ) : Option Dimensions :=
  FSnQdDetectSpecLoop PRIMES total

/-- C5: the dimension detector for FSnQd.  The code agrees with the spec on
D = 32 (returns (2,5)), but on D = 81 it returns (2,6) - the first prime with
the *floor* logarithm - instead of the spec's (3,4), because the integrality
test is performed after `int()` truncation and is vacuously true; the
intended detector (spec version, same prime table) does return (3,4). -/
theorem claim_C5 :
    detect_depth_and_quantity 32 = some ⟨2, 5⟩
      ∧ detect_depth_and_quantity 81 = some ⟨2, 6⟩
      ∧ detect_depth_and_quantity 81 ≠ some ⟨3, 4⟩
      ∧ detect_depth_and_quantity_spec 32 = some ⟨2, 5⟩
      ∧ detect_depth_and_quantity_spec 81 = some ⟨3, 4⟩ := by
  with_unfolding_all decide

/-- The epoch loop of `Gilbert.run` (src/cssfinder/algorithm/gilbert.py,
lines 138-169) over the remaining epoch indices, carrying the last value of
the loop variable `epoch_index`.  Per epoch: `run_epoch` executes (third
component counts these calls), then the corrections count is compared against
`max_corrections` - on reaching the cap the loop breaks *without* yielding -
else the epoch index is yielded.  Returns (yielded indices, final
`epoch_index`, number of `run_epoch` calls). -/
def runGo (counts : ℕ → ℕ) (maxCorrections : ℤ) :
    List ℕ → ℕ → List ℕ × ℕ × ℕ
  | [], last => ([], last, 0)
  | e :: rest, _ =>
    if (counts e : ℤ) ≥ maxCorrections then ([], e, 1)
    else
      let r := runGo counts maxCorrections rest e
      (e :: r.1, r.2.1, r.2.2 + 1)

/-- Embeds `Gilbert.run`: iterate the epoch loop over
`range(max_epochs)` starting from `epoch_index = 0`, then yield the final
`epoch_index` once more after the loop.  `counts e` abstracts
`backend.get_corrections_count()` as observed right after epoch `e` ran.
Returns (all yielded epoch indices in order, number of `run_epoch` calls). -/
def gilbertRun (maxEpochs : ℕ) (maxCorrections : ℤ) (counts : ℕ → ℕ) :
    List ℕ × ℕ :=
  let r := runGo counts maxCorrections (List.range maxEpochs) 0
  (r.1 ++ [r.2.1], r.2.2)

/-- C4: claimed "max_corrections = -1 disables the corrections cap".  In the
code the cap test is `get_corrections_count() >= max_corrections`, and a
count (a natural number) is always >= -1, so with max_corrections = -1 the
loop breaks right after the first epoch: for *every* max_epochs >= 1 and
every corrections behaviour, exactly one `run_epoch` call executes and the
only yield is the final yield of epoch index 0. -/
theorem claim_C4 (counts : ℕ → ℕ) (m : ℕ) :
    gilbertRun (m + 1) (-1) counts = ([0], 1) := by
  unfold gilbertRun
  rw [List.range_succ_eq_map]
  have hc : ((-1 : ℤ) ≤ (counts 0 : ℤ)) :=
    le_trans (by decide) (Int.natCast_nonneg _)
  simp only [runGo, if_pos hc]
  rfl

theorem runGo_no_cap (counts : ℕ → ℕ) (maxCorrections : ℤ) :
    ∀ (l : List ℕ) (last : ℕ), (∀ e ∈ l, (counts e : ℤ) < maxCorrections) →
      runGo counts maxCorrections l last = (l, l.getLastD last, l.length) := by
  intro l
  induction l with
  | nil => intro last _; rfl
  | cons e rest ih =>
    intro last h
    have he : ¬ ((counts e : ℤ) ≥ maxCorrections) :=
      not_le.mpr (h e (List.mem_cons_self e rest))
    simp only [runGo, if_neg he]
    rw [ih e (fun x hx => h x (List.mem_cons_of_mem e hx))]
    rw [List.getLastD_cons, List.length_cons]

theorem runGo_cap (counts : ℕ → ℕ) (maxCorrections : ℤ) (j : ℕ)
    (hj : maxCorrections ≤ (counts j : ℤ)) :
    ∀ (l1 : List ℕ), (∀ e ∈ l1, (counts e : ℤ) < maxCorrections) →
      ∀ (l2 : List ℕ) (last : ℕ),
        runGo counts maxCorrections (l1 ++ j :: l2) last
          = (l1, j, l1.length + 1) := by
  intro l1
  induction l1 with
  | nil =>
    intro _ l2 last
    simp only [List.nil_append, runGo, if_pos hj]
    rfl
  | cons e rest ih =>
    intro h l2 last
    have he : ¬ ((counts e : ℤ) ≥ maxCorrections) :=
      not_le.mpr (h e (List.mem_cons_self e rest))
    rw [List.cons_append]
    simp only [runGo, if_neg he]
    rw [ih (fun x hx => h x (List.mem_cons_of_mem e hx)) l2 e]
    rfl

/-- C10: the yield pattern of `Gilbert.run`.  When the corrections cap is
never reached during the first `max_epochs` epochs, the generator yields
`range(max_epochs)` followed by one extra repetition of the final index
`max_epochs - 1` (so a driver persisting per yielded index persists the last
epoch twice), `max_epochs + 1` yields in total.  When the cap is first
reached at epoch j < max_epochs, it yields exactly `0, ..., j-1, j` - the
indices `range(j+1)`, with `j` occurring once (the final yield), `j + 1`
yields in total. -/
theorem claim_C10 (counts : ℕ → ℕ) (maxCorrections : ℤ) (maxEpochs : ℕ)
    (hm : 1 ≤ maxEpochs) :
    ((∀ e, e < maxEpochs → (counts e : ℤ) < maxCorrections) →
      (gilbertRun maxEpochs maxCorrections counts).1
          = List.range maxEpochs ++ [maxEpochs - 1]
        ∧ (gilbertRun maxEpochs maxCorrections counts).1.length
          = maxEpochs + 1)
      ∧ (∀ j, j < maxEpochs → maxCorrections ≤ (counts j : ℤ) →
          (∀ e, e < j → (counts e : ℤ) < maxCorrections) →
          (gilbertRun maxEpochs maxCorrections counts).1 = List.range (j + 1)
            ∧ (gilbertRun maxEpochs maxCorrections counts).1.length
              = j + 1) := by
  constructor
  · intro h
    have hall : ∀ e ∈ List.range maxEpochs, (counts e : ℤ) < maxCorrections :=
      fun e he => h e (List.mem_range.mp he)
    unfold gilbertRun
    rw [runGo_no_cap counts maxCorrections (List.range maxEpochs) 0 hall]
    obtain ⟨k, rfl⟩ : ∃ k, maxEpochs = k + 1 :=
      ⟨maxEpochs - 1, (Nat.succ_pred_eq_of_pos hm).symm⟩
    constructor
    · rw [List.range_succ, List.getLastD_concat]
      simp
    · simp [List.length_range]
  · intro j hj hcap hbefore
    have hdecomp : List.range maxEpochs
        = List.range j ++ j :: (List.range (maxEpochs - (j + 1))).map
          (fun i => (j + 1) + i) := by
      have hsum : maxEpochs = (j + 1) + (maxEpochs - (j + 1)) := by omega
      calc List.range maxEpochs
          = List.range ((j + 1) + (maxEpochs - (j + 1))) := by rw [← hsum]
        _ = List.range (j + 1)
            ++ (List.range (maxEpochs - (j + 1))).map (fun i => (j + 1) + i)
            := List.range_add _ _
        _ = (List.range j ++ [j])
            ++ (List.range (maxEpochs - (j + 1))).map (fun i => (j + 1) + i)
            := by rw [List.range_succ]
        _ = List.range j ++ j :: (List.range (maxEpochs - (j + 1))).map
            (fun i => (j + 1) + i) := by
              rw [List.append_assoc, List.singleton_append]
    have hall : ∀ e ∈ List.range j, (counts e : ℤ) < maxCorrections :=
      fun e he => hbefore e (List.mem_range.mp he)
    unfold gilbertRun
    rw [hdecomp, runGo_cap counts maxCorrections j hcap (List.range j) hall]
    constructor
    · dsimp only
      rw [← List.range_succ]
    · dsimp only
      simp [List.length_range]

/-- Witness for C10: with max_epochs = 2, cap 5 and a backend that never
records corrections, the yields are [0, 1, 1]; with a backend that already
has 7 corrections after epoch 0, the yields are [0]. -/
theorem claim_C10_witness :
    ((gilbertRun 2 5 (fun _ => 0)).1 = List.range 2 ++ [1]
      ∧ (gilbertRun 2 5 (fun _ => 0)).1.length = 3)
      ∧ ((gilbertRun 2 5 (fun _ => 7)).1 = List.range 1
        ∧ (gilbertRun 2 5 (fun _ => 7)).1.length = 1) :=
  ⟨(claim_C10 (fun _ => 0) 5 2 (by decide)).1 (fun e _ => by decide),
    (claim_C10 (fun _ => 7) 5 2 (by decide)).2 0 (by decide) (by decide)
      (fun e he => absurd he (Nat.not_lt_zero e))⟩

/-- `np.outer(v, w).flatten()` for complex vectors as lists: the row-major
list of pairwise products (the tensor-product vector built in
`random_d_fs`). -/
def outerFlatten (v w : List CC) : List CC :=
  v.flatMap (fun x => w.map (fun y => x * y))

/-- `project` from _complex128.py on a vector as a list:
`np.outer(v, np.conj(v))`, entry (i,j) = v_i * conj(v_j). -/
def projectL (v : List CC) : List (List CC) :=
  v.map (fun x => v.map (fun y => x * star y))

/-- Embeds `random_d_fs` from _complex128.py with the sampled rows of
`get_random_haar_2d(depth, quantity)` passed in explicitly (`rows`, one list
per drawn vector).  `normalizeF` abstracts `normalize` (whose real square
root has no exact rational counterpart); the claim is about which rows enter
the tensor product, which is independent of the normalizer.  Source loop:
`vector = normalize(rand_vectors[0]); for i in range(quantity - 1):
idx_vector = normalize(rand_vectors[i]); vector =
np.outer(vector, idx_vector).flatten(); return project(vector)`. -/
def random_d_fs_rows (normalizeF : List CC → List CC)
    (rows : List (List CC)) (quantity : ℕ) : List (List CC) :=
  let vector0 := normalizeF (rows.getD 0 [])
  let vector := (List.range (quantity - 1)).foldl
    (fun vec i => outerFlatten vec (normalizeF (rows.getD i []))) vector0
  projectL vector

/-- C7: `random_d_fs` is claimed to return
`project(normalize(r_0) ⊗ ... ⊗ normalize(r_{n-1}))` with each of the n
drawn rows used exactly once.  In the code the loop index is off by one: for
n = 2 the result is `project(normalize(r_0) ⊗ normalize(r_0))` - row 0 is
used twice and row 1 (though drawn) is never used - which differs from the
claimed tensor product (shown at the identity normalizer on the unit rows
e_0, e_1). -/
theorem claim_C7 :
    (∀ (normalizeF : List CC → List CC) (r0 r1 : List CC),
      random_d_fs_rows normalizeF [r0, r1] 2
        = projectL (outerFlatten (normalizeF r0) (normalizeF r0)))
      ∧ random_d_fs_rows (fun v => v) [[1, 0], [0, 1]] 2
        ≠ projectL (outerFlatten [(1 : CC), 0] [(0 : CC), 1]) := by
  constructor
  · intro normalizeF r0 r1
    rfl
  · with_unfolding_all decide
